import Mathlib

/-!
Verification of the PrepHub Skill Gap & Readiness Engine.

This file gives a shallow embedding of the engine's core logic:
the skill vocabulary, the skill extractor (`extractSkillsFromText`), the
per-company gap classification (`detailResult`, from `viewCompanyDetail`),
the per-company progress items and their ranking (`progressItem`,
`renderProgressItems`, from `renderProgress`), the cross-company gap
aggregation (`renderSkillGapAnalysisResult`), and the JD match scorer
(`scoreJDCore`, `analyzeJDStep`, from `analyzeJD`), together with the
form handlers that build skill lists (`parseSkillList`).

Modelling conventions:
* JavaScript strings are Lean `String`s; `toLowerCase` is modelled by
  per-character ASCII lowercasing (`lowerStr`), which agrees with the
  JavaScript behaviour on the ASCII vocabulary and inputs at issue.
* `String.prototype.includes` is substring (infix) containment on the
  character lists.
* JavaScript number arithmetic runs in IEEE binary64; `jsRound100`
  models `Math.round((a/t)*100)` exactly at that precision: the array
  lengths `a`, `t` are exactly representable, `a / t` and `· * 100` are
  correctly rounded to the nearest double (ties to even, `roundPosPair`),
  and `Math.round` is half-up rounding of the exact value of the double.
  This differs from exact rational rounding: the two agree for every
  denominator below 40 but, e.g., `Math.round((23/40)*100)` is 57 in the
  program while exact rounding of 57.5 gives 58.
* The one floating-point artefact the code can produce, `NaN` from
  `Math.round((a/0)*100)`, is modelled by `Option ℕ` with `none` for
  `NaN`; every arithmetic path that would propagate `NaN` is modelled on
  the `Option` type, and the ECMAScript `SortCompare` rule that a `NaN`
  comparator result is treated as `+0` is modelled in `jsSortCmp`.
* The mutable `appState` is an explicit `AppState` record threaded
  through the handlers, which write exactly the fields the code writes.
-/

/-- Per-character lowercasing, the model of `String.prototype.toLowerCase`
on the ASCII data handled by the engine. -/
def lowerStr (s : String) : String :=
  ⟨s.data.map Char.toLower⟩

/-- Model of `hay.includes(needle)`: `needle` occurs contiguously in `hay`. -/
def jsIncludes (hay needle : String) : Bool :=
  decide (needle.data <:+: hay.data)

/-- Fuel-driven binary logarithm (structural so that the kernel can
evaluate it); `log2Fuel n n` is `⌊log2 n⌋` for `n ≥ 1`. -/
def log2Fuel : ℕ → ℕ → ℕ
  | 0, _ => 0
  | fuel + 1, n => if 2 ≤ n then log2Fuel fuel (n / 2) + 1 else 0

/-- `⌊log2 n⌋` for `n ≥ 1` (0 at 0). -/
def natLog2 (n : ℕ) : ℕ := log2Fuel n n

/-- Round the fraction `N / D` (`D > 0`) to the nearest integer, ties to
even — the IEEE 754 default rounding. -/
def rnde (N D : ℕ) : ℕ :=
  let p := N / D
  let r := N % D
  if D < 2 * r then p + 1
  else if 2 * r < D then p
  else if p % 2 = 0 then p else p + 1

/-- `⌊log2 (num / den)⌋` for positive `num`, `den`: the binary exponent
of the fraction. -/
def ratLog2 (num den : ℕ) : ℤ :=
  if num * 2 ^ natLog2 den < den * 2 ^ natLog2 num then
    (natLog2 num : ℤ) - natLog2 den - 1
  else (natLog2 num : ℤ) - natLog2 den

/-- The binary64 (IEEE double) value nearest to `num / den`, ties to
even, returned as an exact fraction (numerator, denominator): with
`e = ⌊log2 (num/den)⌋` the representable neighbours are the multiples of
`2 ^ (e - 52)`, so the significand is `num / den` scaled by `2 ^ (52 - e)`
and rounded to the nearest integer, ties to even. Normal range only,
which covers every value this program produces; 0 maps to 0. -/
def roundPosPair (num den : ℕ) : ℕ × ℕ :=
  if num = 0 ∨ den = 0 then (0, 1)
  else
    let shift : ℤ := 52 - ratLog2 num den
    if 0 ≤ shift then
      (rnde (num * 2 ^ shift.toNat) den, 2 ^ shift.toNat)
    else
      (rnde num (den * 2 ^ (-shift).toNat) * 2 ^ (-shift).toNat, 1)

/-- Exact model of the JavaScript `Math.round((a / t) * 100)` in IEEE
binary64 arithmetic, for array lengths `a`, `t` (which are below `2^32`
and hence exactly representable): `a / t` is one correctly rounded
division, `· * 100` one correctly rounded product, and `Math.round` is
half-up rounding of the exact value of the resulting double, as the
ECMAScript specification defines it. The `t = 0` case is guarded by
every call site (the code produces `NaN` there, modelled separately). -/
def jsRound100 (a t : ℕ) : ℕ :=
  if t = 0 then 0
  else
    let d1 := roundPosPair a t
    let d2 := roundPosPair (100 * d1.1) d1.2
    (2 * d2.1 + d2.2) / (2 * d2.2)

/-- The rounding the specification asks for: `round(100 * a / t)`,
written directly as a floor over `ℚ`. -/
def specRound100 (a t : ℕ) : ℕ :=
  ⌊(100 * a : ℚ) / t + 1 / 2⌋₊

/-- The fixed extraction vocabulary `KNOWN_SKILLS`, transcribed verbatim. -/
def KNOWN_SKILLS : List String := [
  "JavaScript", "TypeScript", "Python", "Java", "C++", "C#", "C", "Go", "Rust", "Ruby",
  "PHP", "Swift", "Kotlin", "Scala", "R", "MATLAB",
  "React", "Angular", "Vue", "Vue.js", "Next.js", "Nuxt.js", "HTML", "CSS", "Sass",
  "Tailwind", "Bootstrap", "jQuery", "Redux", "GraphQL", "WebGL", "Three.js",
  "Node.js", "Express", "Django", "Flask", "FastAPI", "Spring", "Spring Boot",
  "Laravel", "Rails", "ASP.NET", ".NET", "Symfony",
  "MySQL", "PostgreSQL", "MongoDB", "Redis", "SQLite", "Oracle", "SQL Server",
  "Firebase", "Supabase", "DynamoDB", "Cassandra", "Elasticsearch",
  "AWS", "Azure", "GCP", "Docker", "Kubernetes", "CI/CD", "Jenkins", "GitHub Actions",
  "Terraform", "Ansible", "Linux", "Nginx", "Apache",
  "React Native", "Flutter", "Android", "iOS", "Xamarin",
  "Machine Learning", "Deep Learning", "TensorFlow", "PyTorch", "Pandas", "NumPy",
  "Scikit-learn", "OpenCV", "NLP", "LLM", "Data Science", "Power BI", "Tableau",
  "Git", "GitHub", "GitLab", "Jira", "Figma", "REST", "REST API", "Microservices",
  "Agile", "Scrum", "OOP", "DSA", "Data Structures",
  "Jest", "Mocha", "Selenium", "Cypress", "JUnit", "pytest"]

/-- Model of `extractSkillsFromText`: a missing (`none`) or empty text is
falsy and returns `[]`; otherwise keep the vocabulary entries whose
lowercased form occurs in the lowercased text. -/
def extractSkillsFromText : Option String → List String
  | none => []
  | some text =>
    if text = "" then []
    else
      let lower := lowerStr text
      KNOWN_SKILLS.filter (fun skill => jsIncludes lower (lowerStr skill))

/-- A tracked company record; fields the engine never reads are omitted. -/
structure Company where
  id : ℕ
  name : String
  requiredSkills : List String
  isFavorite : Bool
deriving DecidableEq

/-- The shared application state: the fields of `appState` the engine
reads or writes. -/
structure AppState where
  companies : List Company
  userSkills : List String
  currentCompany : Option Company
  jdaExtractedSkills : List String
deriving DecidableEq

/-- One entry of the progress list computed by `renderProgress`:
matching against `userSkills` is the code's case-sensitive
`includes`, and the percentage `Math.round((acquired/total)*100)` is
`NaN` (modelled `none`) when `totalSkills = 0`. -/
structure ProgressItem where
  company : Company
  totalSkills : ℕ
  acquiredSkills : ℕ
  percentage : Option ℕ
deriving DecidableEq

/-- The per-company progress computation of `renderProgress`. -/
def progressItem (userSkills : List String) (company : Company) : ProgressItem :=
  let totalSkills := company.requiredSkills.length
  let acquiredSkills :=
    (company.requiredSkills.filter (fun skill => decide (skill ∈ userSkills))).length
  { company := company
    totalSkills := totalSkills
    acquiredSkills := acquiredSkills
    percentage :=
      if totalSkills = 0 then none else some (jsRound100 acquiredSkills totalSkills) }

/-- The ECMAScript `SortCompare` of the comparator
`(a, b) => a.percentage - b.percentage`: a `NaN` difference (any operand
`NaN`) is treated as `+0`. -/
def jsSortCmp : Option ℕ → Option ℕ → ℤ
  | some x, some y => (x : ℤ) - (y : ℤ)
  | _, _ => 0

/-- The precedes-or-ties relation induced by the progress comparator. -/
def progressLE (a b : ProgressItem) : Prop :=
  jsSortCmp a.percentage b.percentage ≤ 0

instance : DecidableRel progressLE :=
  fun a b => inferInstanceAs (Decidable (jsSortCmp a.percentage b.percentage ≤ 0))

/-- The sorted progress list of `renderProgress`: a stable insertion sort
by ascending percentage under the `NaN`-as-tie comparator. -/
def renderProgressItems (companies : List Company) (userSkills : List String) :
    List ProgressItem :=
  List.insertionSort progressLE (companies.map (progressItem userSkills))

/-- The skill classification of `viewCompanyDetail`: the code compares
with `includes` on the raw strings, i.e. case-sensitively. -/
structure DetailResult where
  proficientSkills : List String
  neededSkills : List String
deriving DecidableEq

/-- The classification step of `viewCompanyDetail` (lines 437-443). -/
def detailResult (userSkills : List String) (company : Company) : DetailResult :=
  { proficientSkills :=
      company.requiredSkills.filter (fun skill => decide (skill ∈ userSkills))
    neededSkills :=
      company.requiredSkills.filter (fun skill => !decide (skill ∈ userSkills)) }

/-- `viewCompanyDetail` as a state step: it looks the company up by id,
stores it in `currentCompany`, and classifies its skills. -/
def viewCompanyDetailStep (s : AppState) (companyId : ℕ) :
    AppState × Option DetailResult :=
  match s.companies.find? (fun c => c.id == companyId) with
  | none => (s, none)
  | some company =>
    ({ s with currentCompany := some company },
     some (detailResult s.userSkills company))

/-- Accumulator for `dedupFirst`: `seen` is the set built so far. -/
def dedupFirstAux (seen : List String) : List String → List String
  | [] => []
  | x :: xs =>
    if seen.contains x then dedupFirstAux seen xs
    else x :: dedupFirstAux (x :: seen) xs

/-- First-seen-order deduplication by exact string equality: the model of
inserting into a JavaScript `Set` and converting back to an array. -/
def dedupFirst (l : List String) : List String :=
  dedupFirstAux [] l

/-- The cross-company union of required skills built by
`renderSkillGapAnalysis` (and `renderDashboard`): a `Set` filled company
by company, so deduplication is by exact string equality. -/
def allRequiredSkillsOf (companies : List Company) : List String :=
  dedupFirst (companies.map Company.requiredSkills).flatten

/-- The per-skill demand count of `renderSkillGapAnalysis` (line 612):
the number of companies whose `requiredSkills` contain the skill
case-insensitively. -/
def demandCount (companies : List Company) (skill : String) : ℕ :=
  (companies.filter
    (fun c => decide (lowerStr skill ∈ c.requiredSkills.map lowerStr))).length

/-- The structured output of `renderSkillGapAnalysis`. -/
structure GapAnalysis where
  allRequiredSkills : List String
  proficientSkills : List String
  neededSkills : List String
  readiness : ℕ
deriving DecidableEq

/-- The aggregate gap computation of `renderSkillGapAnalysis`:
classification against `userSkills` is case-insensitive; the readiness
percentage guards against an empty union (line 649). -/
def renderSkillGapAnalysisResult (companies : List Company)
    (userSkills : List String) : GapAnalysis :=
  let allReq := allRequiredSkillsOf companies
  let userSkillsLower := userSkills.map lowerStr
  let proficient := allReq.filter (fun skill => decide (lowerStr skill ∈ userSkillsLower))
  let needed := allReq.filter (fun skill => !decide (lowerStr skill ∈ userSkillsLower))
  let total := proficient.length + needed.length
  { allRequiredSkills := allReq
    proficientSkills := proficient
    neededSkills := needed
    readiness := if total = 0 then 0 else jsRound100 proficient.length total }

/-- `renderSkillGapAnalysis` as a state step (it only reads the state). -/
def renderSkillGapAnalysisStep (s : AppState) : AppState × GapAnalysis :=
  (s, renderSkillGapAnalysisResult s.companies s.userSkills)

/-- `renderProgress` as a state step (it only reads the state). -/
def renderProgressStep (s : AppState) : AppState × List ProgressItem :=
  (s, renderProgressItems s.companies s.userSkills)

/-- The three score tiers of the JD analyzer. -/
inductive Tier where
  | low
  | mid
  | high
deriving DecidableEq

/-- The tier assignment of `analyzeJD` (line 1623):
`score >= 70 ? high : score >= 40 ? mid : low`. -/
def tierOf (score : ℕ) : Tier :=
  if score ≥ 70 then Tier.high else if score ≥ 40 then Tier.mid else Tier.low

/-- The structured result of one JD analysis. -/
structure JDResult where
  extracted : List String
  haveSkills : List String
  needSkills : List String
  score : ℕ
  tier : Tier
deriving DecidableEq

/-- The scoring core of `analyzeJD` on a nonempty trimmed text: extract,
then either take the empty terminal branch (lines 1593-1607) or classify
case-insensitively against `userSkills` and round the score. -/
def scoreJDCore (text : String) (userSkills : List String) : JDResult :=
  let extracted := extractSkillsFromText (some text)
  if extracted.isEmpty then
    { extracted := [], haveSkills := [], needSkills := [], score := 0, tier := Tier.low }
  else
    let userSkillsLower := userSkills.map lowerStr
    let haveSkills := extracted.filter (fun s => decide (lowerStr s ∈ userSkillsLower))
    let needSkills := extracted.filter (fun s => !decide (lowerStr s ∈ userSkillsLower))
    let score := jsRound100 haveSkills.length extracted.length
    { extracted := extracted
      haveSkills := haveSkills
      needSkills := needSkills
      score := score
      tier := tierOf score }

/-- JavaScript `trim`: strip leading and trailing whitespace. -/
def trimStr (s : String) : String :=
  ⟨((s.data.dropWhile Char.isWhitespace).reverse.dropWhile Char.isWhitespace).reverse⟩

/-- `analyzeJD` as a state step: an all-whitespace text is rejected with
no result and no state change; otherwise the extracted list is stored in
`jdaExtractedSkills` and the scored result returned. -/
def analyzeJDStep (s : AppState) (rawText : String) : AppState × Option JDResult :=
  let text := trimStr rawText
  if text = "" then (s, none)
  else
    let r := scoreJDCore text s.userSkills
    ({ s with jdaExtractedSkills := r.extracted }, some r)

/-- JavaScript `str.split(",")` on character lists. -/
def splitCommaChars : List Char → List (List Char)
  | [] => [[]]
  | c :: cs =>
    let rest := splitCommaChars cs
    if c = ',' then [] :: rest
    else
      match rest with
      | [] => [[c]]
      | t :: ts => (c :: t) :: ts

/-- JavaScript `str.split(",")`; note `"".split(",") = [""]`. -/
def jsSplitComma (s : String) : List String :=
  (splitCommaChars s.data).map (fun cs => ⟨cs⟩)

/-- The skill-list pipeline shared by `handleUpdateSkills` and
`handleAddCompany`: `split(",").map(trim).filter(s => s)` (a string is
truthy exactly when it is nonempty). -/
def parseSkillList (input : String) : List String :=
  ((jsSplitComma input).map trimStr).filter (fun s => s != "")

/-- `handleUpdateSkills`: full replacement of `userSkills`. -/
def handleUpdateSkillsStep (s : AppState) (input : String) : AppState :=
  { s with userSkills := parseSkillList input }

/-- `handleAddCompany`: push a new record whose `requiredSkills` come
from the same pipeline. -/
def handleAddCompanyStep (s : AppState) (id : ℕ) (name skillsField : String) :
    AppState :=
  { s with
    companies := s.companies ++
      [{ id := id, name := name, requiredSkills := parseSkillList skillsField,
         isFavorite := false }] }

/-- Company A of the spec's ranking example. -/
def companyA : Company :=
  { id := 1, name := "A", requiredSkills := ["Python", "SQL"], isFavorite := false }

/-- Company B of the spec's ranking example (no required skills). -/
def companyB : Company :=
  { id := 2, name := "B", requiredSkills := [], isFavorite := false }

/-- Company C of the spec's ranking example. -/
def companyC : Company :=
  { id := 3, name := "C", requiredSkills := ["Go"], isFavorite := false }

/-- A company requiring "SQL", for exercising cross-company deduplication. -/
def companyX : Company :=
  { id := 10, name := "X", requiredSkills := ["SQL"], isFavorite := false }

/-- A company requiring "sql" (same skill, different casing). -/
def companyY : Company :=
  { id := 11, name := "Y", requiredSkills := ["sql"], isFavorite := false }

/-- A company whose single required skill differs from the user's own
spelling only in case, for exercising `viewCompanyDetail`. -/
def companyZ : Company :=
  { id := 12, name := "Z", requiredSkills := ["Python"], isFavorite := false }

/-- Mapping a function over both sides preserves contiguous containment. -/
theorem infix_map {α β : Type} (f : α → β) {l₁ l₂ : List α} (h : l₁ <:+: l₂) :
    l₁.map f <:+: l₂.map f := by
  obtain ⟨s, t, rfl⟩ := h
  exact ⟨s.map f, t.map f, by simp⟩

/-- The specification's rounding in closed integer form. -/
theorem specRound100_eq_div (a t : ℕ) (h : 0 < t) :
    specRound100 a t = (200 * a + t) / (2 * t) := by
  unfold specRound100
  have h2 : (100 * a : ℚ) / t + 1 / 2 = ((200 * a + t : ℕ) : ℚ) / ((2 * t : ℕ) : ℚ) := by
    have ht : (t : ℚ) ≠ 0 := by exact_mod_cast h.ne'
    push_cast
    field_simp
    ring
  rw [h2, Nat.floor_div_nat, Nat.floor_natCast]

set_option maxRecDepth 1000000 in
set_option maxHeartbeats 4000000 in
/-- For every denominator below 40 the binary64 evaluation of
`Math.round((a/t)*100)` coincides with exact half-up rounding (the first
divergence is at 23/40); checked exhaustively. -/
theorem jsRound100_small_agree :
    ∀ t, t < 40 → ∀ a, a ≤ t → jsRound100 a t = (200 * a + t) / (2 * t) := by
  decide

/-- A filter and its complementary filter split the length of a list. -/
theorem length_filter_add_length_filter_not {α : Type} (l : List α) (p : α → Bool) :
    (l.filter p).length + (l.filter (fun a => !p a)).length = l.length := by
  induction l with
  | nil => rfl
  | cons x xs ih =>
    cases hx : p x <;> simp [List.filter_cons, hx] <;> omega

/-- Filtering out a value different from `x` does not change the
multiplicity of `x`. -/
theorem count_filter_ne_empty (l : List String) (x : String) (hx : x ≠ "") :
    (l.filter (fun s => s != "")).count x = l.count x := by
  induction l with
  | nil => rfl
  | cons a t ih =>
    by_cases ha : a = ""
    · subst ha
      rw [List.filter_cons_of_neg (by simp), ih, List.count_cons]
      simp [Ne.symm hx]
    · rw [List.filter_cons_of_pos (by simpa using ha), List.count_cons,
        List.count_cons, ih]

/-- On items whose percentage is a number, the progress comparator is total. -/
theorem progressLE_total_of_isSome {a b : ProgressItem}
    (ha : a.percentage.isSome) (hb : b.percentage.isSome) :
    progressLE a b ∨ progressLE b a := by
  obtain ⟨x, hx⟩ := Option.isSome_iff_exists.mp ha
  obtain ⟨y, hy⟩ := Option.isSome_iff_exists.mp hb
  unfold progressLE
  rw [hx, hy]
  simp only [jsSortCmp]
  omega

/-- On items whose percentage is a number, the progress comparator is
transitive. -/
theorem progressLE_trans_of_isSome {a b c : ProgressItem}
    (ha : a.percentage.isSome) (hb : b.percentage.isSome) (hc : c.percentage.isSome)
    (hab : progressLE a b) (hbc : progressLE b c) : progressLE a c := by
  obtain ⟨x, hx⟩ := Option.isSome_iff_exists.mp ha
  obtain ⟨y, hy⟩ := Option.isSome_iff_exists.mp hb
  obtain ⟨z, hz⟩ := Option.isSome_iff_exists.mp hc
  unfold progressLE at *
  rw [hx, hy] at hab
  rw [hy, hz] at hbc
  rw [hx, hz]
  simp only [jsSortCmp] at hab hbc ⊢
  omega

/-- Inserting a numeric-percentage item into a sorted list of
numeric-percentage items keeps it sorted. -/
theorem pairwise_orderedInsert_progress (x : ProgressItem) (l : List ProgressItem)
    (hx : x.percentage.isSome) (hl : ∀ a ∈ l, a.percentage.isSome)
    (hp : l.Pairwise progressLE) :
    (List.orderedInsert progressLE x l).Pairwise progressLE := by
  induction l with
  | nil => simp
  | cons b t ih =>
    simp only [List.orderedInsert]
    by_cases hxb : progressLE x b
    · rw [if_pos hxb]
      refine List.Pairwise.cons ?_ hp
      intro y hy
      rcases List.mem_cons.mp hy with rfl | hyt
      · exact hxb
      · exact progressLE_trans_of_isSome hx (hl b (by simp)) (hl y (by simp [hyt]))
          hxb ((List.pairwise_cons.mp hp).1 y hyt)
    · rw [if_neg hxb]
      refine List.Pairwise.cons ?_
        (ih (fun a haa => hl a (by simp [haa])) (List.pairwise_cons.mp hp).2)
      intro y hy
      rcases (List.mem_orderedInsert progressLE).mp hy with rfl | hyt
      · rcases progressLE_total_of_isSome hx (hl b (by simp)) with h | h
        · exact absurd h hxb
        · exact h
      · exact (List.pairwise_cons.mp hp).1 y hyt

/-- Insertion sort under the progress comparator sorts any list of items
whose percentages are all numbers. -/
theorem pairwise_insertionSort_progress (l : List ProgressItem)
    (h : ∀ a ∈ l, a.percentage.isSome) :
    (List.insertionSort progressLE l).Pairwise progressLE := by
  induction l with
  | nil => simp
  | cons x xs ih =>
    simp only [List.insertionSort]
    refine pairwise_orderedInsert_progress x _ (h x (by simp)) ?_ (ih ?_)
    · intro a haa
      exact h a
        (by simp [(List.perm_insertionSort progressLE xs).mem_iff.mp haa])
    · intro a haa
      exact h a (by simp [haa])

/-- Membership characterization of the extractor: a string is extracted
exactly when it is a vocabulary entry whose lowercased characters occur
contiguously in the lowercased text. -/
theorem mem_extractSkillsFromText (t s : String) :
    s ∈ extractSkillsFromText (some t) ↔
      s ∈ KNOWN_SKILLS ∧ (lowerStr s).data <:+: (lowerStr t).data := by
  by_cases ht : t = ""
  · subst ht
    rw [show extractSkillsFromText (some "") = [] from rfl]
    simp only [List.not_mem_nil, false_iff]
    rintro ⟨hs, hinf⟩
    have hdata : (lowerStr s).data = [] := List.sublist_nil.mp hinf.sublist
    have hs0 : s = "" := by
      cases s with
      | mk data =>
        have : data = [] := by simpa [lowerStr] using hdata
        simp [this]
    exact absurd (hs0 ▸ hs) (by decide)
  · simp [extractSkillsFromText, if_neg ht, List.mem_filter, jsIncludes]

/-- The extractor output is a sublist of the vocabulary: canonical
casing, vocabulary order, each entry at most once. -/
theorem extractSkillsFromText_sublist (t : String) :
    (extractSkillsFromText (some t)).Sublist KNOWN_SKILLS := by
  by_cases ht : t = ""
  · subst ht
    simp [extractSkillsFromText]
  · simp only [extractSkillsFromText, if_neg ht]
    exact List.filter_sublist _

/-- The extractor output has no duplicates even up to case. -/
theorem extractSkillsFromText_lower_nodup (t : String) :
    ((extractSkillsFromText (some t)).map lowerStr).Nodup := by
  have hvocab : (KNOWN_SKILLS.map lowerStr).Nodup := by decide
  exact hvocab.sublist ((extractSkillsFromText_sublist t).map lowerStr)

/-- The scorer on a text with no extracted skills: the terminal branch. -/
theorem scoreJDCore_of_empty (t : String) (u : List String)
    (h : extractSkillsFromText (some t) = []) :
    scoreJDCore t u =
      { extracted := [], haveSkills := [], needSkills := [], score := 0,
        tier := Tier.low } := by
  unfold scoreJDCore
  simp [h]

/-- The scorer on a text with at least one extracted skill: the
comparator branch, written out. -/
theorem scoreJDCore_of_ne (t : String) (u : List String)
    (h : extractSkillsFromText (some t) ≠ []) :
    scoreJDCore t u =
      { extracted := extractSkillsFromText (some t)
        haveSkills := (extractSkillsFromText (some t)).filter
          (fun s => decide (lowerStr s ∈ u.map lowerStr))
        needSkills := (extractSkillsFromText (some t)).filter
          (fun s => !decide (lowerStr s ∈ u.map lowerStr))
        score := jsRound100
          ((extractSkillsFromText (some t)).filter
            (fun s => decide (lowerStr s ∈ u.map lowerStr))).length
          (extractSkillsFromText (some t)).length
        tier := tierOf (jsRound100
          ((extractSkillsFromText (some t)).filter
            (fun s => decide (lowerStr s ∈ u.map lowerStr))).length
          (extractSkillsFromText (some t)).length) } := by
  unfold scoreJDCore
  simp [h]

/-- C5: for every input text, `extractSkillsFromText` returns exactly the
vocabulary entries whose lower-cased form is a substring of the
lower-cased text, each in its canonical vocabulary casing, in vocabulary
order (a duplicate-free sublist of `KNOWN_SKILLS`), and empty or null
input yields the empty sequence. -/
theorem extractSkills_characterization :
    (∀ t s : String,
      s ∈ extractSkillsFromText (some t) ↔
        s ∈ KNOWN_SKILLS ∧ (lowerStr s).data <:+: (lowerStr t).data) ∧
    (∀ t : String, (extractSkillsFromText (some t)).Sublist KNOWN_SKILLS) ∧
    (∀ t : String, (extractSkillsFromText (some t)).Nodup) ∧
    extractSkillsFromText (some "") = [] ∧
    extractSkillsFromText none = [] := by
  have hnodup : KNOWN_SKILLS.Nodup := by decide
  exact ⟨mem_extractSkillsFromText, extractSkillsFromText_sublist,
    fun t => hnodup.sublist (extractSkillsFromText_sublist t), rfl, rfl⟩

/-- C6: the tier is `high` exactly when the score is at least 70, `mid`
exactly when it is in `[40, 70)`, and `low` exactly when it is below 40;
the scorer's tier is always this function of its score, and the boundary
scores 70, 40 and 39 land in `high`, `mid` and `low` respectively. -/
theorem tier_boundaries :
    (∀ score : ℕ,
      (tierOf score = Tier.high ↔ 70 ≤ score) ∧
      (tierOf score = Tier.mid ↔ 40 ≤ score ∧ score < 70) ∧
      (tierOf score = Tier.low ↔ score < 40)) ∧
    (∀ (t : String) (u : List String),
      (scoreJDCore t u).tier = tierOf (scoreJDCore t u).score) ∧
    tierOf 70 = Tier.high ∧ tierOf 40 = Tier.mid ∧ tierOf 39 = Tier.low := by
  refine ⟨?_, ?_, by decide, by decide, by decide⟩
  · intro score
    unfold tierOf
    split_ifs with h1 h2 <;>
      refine ⟨?_, ?_, ?_⟩ <;> simp <;> omega
  · intro t u
    by_cases h : extractSkillsFromText (some t) = []
    · rw [scoreJDCore_of_empty t u h]
      decide
    · rw [scoreJDCore_of_ne t u h]

/-- C7: whenever extraction yields no skills, the scorer takes the
distinct terminal branch: score 0, tier `low`, empty matched and missing
sets, without going through the comparator logic. -/
theorem scoreJD_empty_extracted_terminal (t : String) (u : List String)
    (h : extractSkillsFromText (some t) = []) :
    scoreJDCore t u =
      { extracted := [], haveSkills := [], needSkills := [], score := 0,
        tier := Tier.low } :=
  scoreJDCore_of_empty t u h

/-- C7 witness: the terminal branch at the concrete text "xyz". -/
theorem scoreJD_empty_extracted_terminal_witness :
    extractSkillsFromText (some "xyz") = [] ∧
    scoreJDCore "xyz" ["Python"] =
      { extracted := [], haveSkills := [], needSkills := [], score := 0,
        tier := Tier.low } :=
  ⟨by decide, scoreJD_empty_extracted_terminal "xyz" ["Python"] (by decide)⟩

/-- C8: for vocabulary entries A and B with A a substring of B, any text
containing B yields both A and B in the extraction result; the shorter
nested match is not suppressed. -/
theorem extractSkills_nested_match_no_suppression (t A B : String)
    (hA : A ∈ KNOWN_SKILLS) (hB : B ∈ KNOWN_SKILLS)
    (hAB : A.data <:+: B.data) (hBt : B.data <:+: t.data) :
    A ∈ extractSkillsFromText (some t) ∧ B ∈ extractSkillsFromText (some t) := by
  constructor
  · exact (mem_extractSkillsFromText t A).mpr
      ⟨hA, infix_map Char.toLower (hAB.trans hBt)⟩
  · exact (mem_extractSkillsFromText t B).mpr ⟨hB, infix_map Char.toLower hBt⟩

/-- C8 witness: "React" is a substring of "React Native", and a text
containing the latter extracts both. -/
theorem extractSkills_nested_match_no_suppression_witness :
    "React" ∈ extractSkillsFromText (some "I know React Native") ∧
    "React Native" ∈ extractSkillsFromText (some "I know React Native") :=
  extractSkills_nested_match_no_suppression "I know React Native" "React"
    "React Native" (by decide) (by decide) (by decide) (by decide)

/-- C1 counterexample: the per-company readiness of a company with zero
required skills is `Math.round((0/0)*100) = NaN` (modelled `none`), not
0 as the claim states. -/
theorem progress_zero_required_percentage_counterexample :
    (progressItem ["Python"] companyB).percentage = none ∧
    (progressItem ["Python"] companyB).percentage ≠ some 0 := by
  constructor <;> decide

set_option maxRecDepth 100000 in
/-- C1 amended: at the JD comparator site, matched and missing are
disjoint, their union is the extracted (case-insensitively
duplicate-free) required sequence, and the score is
`Math.round((|matched| / (|matched| + |missing|)) * 100)` evaluated in
IEEE binary64 arithmetic when the denominator is positive, and 0 when
the required sequence is empty; the binary64 evaluation agrees with the
specification's exact rounding `round(100 * m / t) = (200m + t) / (2t)`
for every denominator below 40 but not in general — at 23 matched of 40
the code yields 57 while exact rounding yields 58. At the per-company
progress site the percentage is the same binary64 rounding when the raw
required list is nonempty and `NaN` (modelled `none`), not 0, when it
is empty. -/
theorem gapResult_invariants_amended :
    (∀ (t : String) (u : List String) (s : String),
      s ∈ (scoreJDCore t u).extracted ↔
        s ∈ (scoreJDCore t u).haveSkills ∨ s ∈ (scoreJDCore t u).needSkills) ∧
    (∀ (t : String) (u : List String) (s : String),
      s ∈ (scoreJDCore t u).haveSkills → s ∉ (scoreJDCore t u).needSkills) ∧
    (∀ (t : String) (u : List String),
      ((scoreJDCore t u).extracted.map lowerStr).Nodup) ∧
    (∀ (t : String) (u : List String), (scoreJDCore t u).extracted ≠ [] →
      (scoreJDCore t u).score =
        jsRound100 (scoreJDCore t u).haveSkills.length
          ((scoreJDCore t u).haveSkills.length +
            (scoreJDCore t u).needSkills.length)) ∧
    (∀ (t : String) (u : List String), (scoreJDCore t u).extracted = [] →
      (scoreJDCore t u).score = 0 ∧ (scoreJDCore t u).haveSkills = [] ∧
        (scoreJDCore t u).needSkills = []) ∧
    (∀ (u : List String) (c : Company), c.requiredSkills ≠ [] →
      (progressItem u c).percentage =
        some (jsRound100 (progressItem u c).acquiredSkills
          (progressItem u c).totalSkills)) ∧
    (∀ (u : List String) (c : Company), c.requiredSkills = [] →
      (progressItem u c).percentage = none) ∧
    (∀ a t : ℕ, 0 < t → specRound100 a t = (200 * a + t) / (2 * t)) ∧
    (∀ t, t < 40 → ∀ a, a ≤ t → jsRound100 a t = specRound100 a t) ∧
    (jsRound100 23 40 = 57 ∧ specRound100 23 40 = 58) := by
  refine ⟨?_, ?_, ?_, ?_, ?_, ?_, ?_, specRound100_eq_div, ?_, by decide,
    by rw [specRound100_eq_div 23 40 (by norm_num)]⟩
  · intro t u s
    by_cases h : extractSkillsFromText (some t) = []
    · rw [scoreJDCore_of_empty t u h]
      simp
    · rw [scoreJDCore_of_ne t u h]
      simp only [List.mem_filter]
      by_cases hs : lowerStr s ∈ u.map lowerStr <;> simp [hs]
  · intro t u s
    by_cases h : extractSkillsFromText (some t) = []
    · rw [scoreJDCore_of_empty t u h]
      simp
    · rw [scoreJDCore_of_ne t u h]
      simp only [List.mem_filter]
      by_cases hs : lowerStr s ∈ u.map lowerStr <;> simp [hs]
  · intro t u
    by_cases h : extractSkillsFromText (some t) = []
    · rw [scoreJDCore_of_empty t u h]
      simp
    · rw [scoreJDCore_of_ne t u h]
      exact extractSkillsFromText_lower_nodup t
  · intro t u hne
    by_cases h : extractSkillsFromText (some t) = []
    · rw [scoreJDCore_of_empty t u h] at hne
      simp at hne
    · rw [scoreJDCore_of_ne t u h]
      simp only
      rw [length_filter_add_length_filter_not]
  · intro t u h0
    by_cases h : extractSkillsFromText (some t) = []
    · rw [scoreJDCore_of_empty t u h]
      exact ⟨rfl, rfl, rfl⟩
    · rw [scoreJDCore_of_ne t u h] at h0
      exact absurd h0 h
  · intro u c hc
    have htot : c.requiredSkills.length ≠ 0 := by
      simpa [List.length_eq_zero] using hc
    simp only [progressItem, if_neg htot]
  · intro u c hc
    simp [progressItem, hc]
  · intro t ht a ha
    rcases Nat.eq_zero_or_pos t with rfl | htpos
    · have ha0 : a = 0 := Nat.le_zero.mp ha
      subst ha0
      have h1 : jsRound100 0 0 = 0 := rfl
      have h2 : specRound100 0 0 = 0 := by
        unfold specRound100
        norm_num
      rw [h1, h2]
    · rw [specRound100_eq_div a t htpos]
      exact jsRound100_small_agree t ht a ha

/-- C1 witness: the amended invariants evaluated at concrete inputs with
each hypothesis discharged. -/
theorem gapResult_invariants_amended_witness :
    ((scoreJDCore "python and sql" ["Python"]).extracted ≠ [] ∧
      (scoreJDCore "python and sql" ["Python"]).score =
        jsRound100 (scoreJDCore "python and sql" ["Python"]).haveSkills.length
          ((scoreJDCore "python and sql" ["Python"]).haveSkills.length +
            (scoreJDCore "python and sql" ["Python"]).needSkills.length)) ∧
    ((progressItem ["Python"] companyA).percentage =
      some (jsRound100 (progressItem ["Python"] companyA).acquiredSkills
        (progressItem ["Python"] companyA).totalSkills)) ∧
    (progressItem ["Python"] companyB).percentage = none ∧
    specRound100 1 2 = (200 * 1 + 2) / (2 * 2) ∧
    jsRound100 1 2 = specRound100 1 2 :=
  ⟨⟨by decide, gapResult_invariants_amended.2.2.2.1 "python and sql" ["Python"]
      (by decide)⟩,
   gapResult_invariants_amended.2.2.2.2.2.1 ["Python"] companyA (by decide),
   gapResult_invariants_amended.2.2.2.2.2.2.1 ["Python"] companyB rfl,
   gapResult_invariants_amended.2.2.2.2.2.2.2.1 1 2 (by norm_num),
   gapResult_invariants_amended.2.2.2.2.2.2.2.2.1 2 (by norm_num) 1 (by norm_num)⟩

set_option maxRecDepth 100000 in
/-- C2 counterexample: on the claim's example (A requires Python and SQL,
B requires nothing, C requires Go, user has Python, inserted in order
A, B, C) the rendered order is not [B, C, A]. -/
theorem rankByReadiness_example_counterexample :
    (renderProgressItems [companyA, companyB, companyC] ["Python"]).map
      (fun i => i.company.name) ≠ ["B", "C", "A"] := by
  decide

set_option maxRecDepth 100000 in
/-- C2 amended: the progress ranking is a stable insertion sort ascending
by percentage, but a company with zero required skills gets percentage
`NaN` (modelled `none`) whose comparisons are all treated as ties, so it
keeps its original position instead of sorting first; the output is a
permutation of the per-company items, it is pairwise ordered whenever
every company has at least one required skill, and on the claim's
example the resulting order is [A, B, C]. -/
theorem rankByReadiness_amended :
    (∀ (u : List String) (c : Company), c.requiredSkills = [] →
      (progressItem u c).percentage = none) ∧
    (∀ p : Option ℕ, jsSortCmp none p = 0 ∧ jsSortCmp p none = 0) ∧
    (∀ (companies : List Company) (u : List String),
      (renderProgressItems companies u).Perm (companies.map (progressItem u))) ∧
    (∀ (companies : List Company) (u : List String),
      (∀ c ∈ companies, c.requiredSkills ≠ []) →
      (renderProgressItems companies u).Pairwise progressLE) ∧
    (renderProgressItems [companyA, companyB, companyC] ["Python"]).map
      (fun i => i.company.name) = ["A", "B", "C"] := by
  refine ⟨?_, ?_, ?_, ?_, by decide⟩
  · intro u c hc
    simp [progressItem, hc]
  · intro p
    cases p <;> exact ⟨rfl, rfl⟩
  · intro companies u
    exact List.perm_insertionSort progressLE _
  · intro companies u h
    refine pairwise_insertionSort_progress _ ?_
    intro a ha
    obtain ⟨c, hc, rfl⟩ := List.mem_map.mp ha
    have hne := h c hc
    simp [progressItem, List.length_eq_zero, hne]

/-- C2 witness: the amended ranking facts at concrete inputs with the
hypotheses discharged. -/
theorem rankByReadiness_amended_witness :
    (progressItem ["Python"] companyB).percentage = none ∧
    (renderProgressItems [companyA, companyC] ["Python"]).Pairwise progressLE :=
  ⟨rankByReadiness_amended.1 ["Python"] companyB rfl,
   rankByReadiness_amended.2.2.2.1 [companyA, companyC] ["Python"] (by decide)⟩

/-- C3 counterexample: the per-company detail classification compares
case-sensitively, so a user skill "python" does not match the required
skill "Python" there. -/
theorem viewCompanyDetail_case_sensitive_counterexample :
    (detailResult ["python"] companyZ).proficientSkills = [] ∧
    (detailResult ["python"] companyZ).proficientSkills ≠ ["Python"] ∧
    (detailResult ["python"] companyZ).neededSkills = ["Python"] := by
  refine ⟨by decide, by decide, by decide⟩

/-- C3 amended: classification is case-insensitive at the cross-company
gap analysis and at the JD scorer (a skill is matched exactly when some
possessed entry equals it after lowercasing), but the per-company detail
classification matches by exact string equality. -/
theorem case_insensitivity_per_site_amended :
    (∀ (companies : List Company) (u : List String) (s : String),
      s ∈ (renderSkillGapAnalysisResult companies u).proficientSkills ↔
        s ∈ (renderSkillGapAnalysisResult companies u).allRequiredSkills ∧
          ∃ p ∈ u, lowerStr p = lowerStr s) ∧
    (∀ (t : String) (u : List String) (s : String),
      s ∈ (scoreJDCore t u).haveSkills ↔
        s ∈ (scoreJDCore t u).extracted ∧ ∃ p ∈ u, lowerStr p = lowerStr s) ∧
    (∀ (u : List String) (c : Company) (s : String),
      s ∈ (detailResult u c).proficientSkills ↔
        s ∈ c.requiredSkills ∧ s ∈ u) := by
  refine ⟨?_, ?_, ?_⟩
  · intro companies u s
    simp [renderSkillGapAnalysisResult, List.mem_filter, List.mem_map,
      eq_comm]
  · intro t u s
    by_cases h : extractSkillsFromText (some t) = []
    · rw [scoreJDCore_of_empty t u h]
      simp
    · rw [scoreJDCore_of_ne t u h]
      simp [List.mem_filter, List.mem_map, eq_comm]
  · intro u c s
    simp [detailResult, List.mem_filter]

/-- C4 (code bug evidence): two companies requiring "SQL" and "sql"
produce a union with both spellings (the `Set` deduplicates by exact
string equality, contradicting the site's own "case-insensitive dedup"
comment), and both duplicates flow into the needed-skills display, while
the per-skill demand counts are computed case-insensitively as claimed. -/
theorem aggregate_union_case_sensitive_eval :
    allRequiredSkillsOf [companyX, companyY] = ["SQL", "sql"] ∧
    allRequiredSkillsOf [companyX, companyY] ≠ ["SQL"] ∧
    demandCount [companyX, companyY] "SQL" = 2 ∧
    demandCount [companyX, companyY] "sql" = 2 ∧
    (renderSkillGapAnalysisResult [companyX, companyY] []).neededSkills =
      ["SQL", "sql"] := by
  refine ⟨by decide, by decide, by decide, by decide, by decide⟩

/-- C9: the core operations never change the caller-supplied `companies`
and `userSkills` (the JD analyzer writes only its `jdaExtractedSkills`
scratch field, the detail view only `currentCompany`, the renderers
nothing), and re-running an operation on the state it produced returns
the identical output. -/
theorem core_ops_frame_and_determinism :
    (∀ (s : AppState) (t : String),
      (analyzeJDStep s t).1.companies = s.companies ∧
      (analyzeJDStep s t).1.userSkills = s.userSkills) ∧
    (∀ (s : AppState) (t : String),
      (analyzeJDStep (analyzeJDStep s t).1 t).2 = (analyzeJDStep s t).2) ∧
    (∀ (s : AppState) (cid : ℕ),
      (viewCompanyDetailStep s cid).1.companies = s.companies ∧
      (viewCompanyDetailStep s cid).1.userSkills = s.userSkills) ∧
    (∀ (s : AppState) (cid : ℕ),
      (viewCompanyDetailStep (viewCompanyDetailStep s cid).1 cid).2 =
        (viewCompanyDetailStep s cid).2) ∧
    (∀ s : AppState, (renderProgressStep s).1 = s) ∧
    (∀ s : AppState, (renderSkillGapAnalysisStep s).1 = s) := by
  refine ⟨?_, ?_, ?_, ?_, fun s => rfl, fun s => rfl⟩
  · intro s t
    unfold analyzeJDStep
    by_cases h : trimStr t = "" <;> simp [h]
  · intro s t
    unfold analyzeJDStep
    by_cases h : trimStr t = "" <;> simp [h]
  · intro s cid
    unfold viewCompanyDetailStep
    cases hf : s.companies.find? (fun c => c.id == cid) <;> simp
  · intro s cid
    unfold viewCompanyDetailStep
    cases hf : s.companies.find? (fun c => c.id == cid) <;> simp [hf]

/-- C10: the skills entered through the update-skills and add-company
forms are exactly the comma-separated tokens, whitespace-trimmed, with
empty tokens dropped, in input order; no empty skill enters the state
and duplicates are preserved. -/
theorem skill_form_tokenization :
    (∀ input : String, "" ∉ parseSkillList input) ∧
    (∀ input : String,
      (parseSkillList input).Sublist ((jsSplitComma input).map trimStr)) ∧
    (∀ input x : String, x ≠ "" →
      (parseSkillList input).count x = ((jsSplitComma input).map trimStr).count x) ∧
    (∀ (s : AppState) (input : String),
      (handleUpdateSkillsStep s input).userSkills = parseSkillList input) ∧
    (∀ (s : AppState) (id : ℕ) (name skillsField : String),
      (handleAddCompanyStep s id name skillsField).companies =
        s.companies ++
          [{ id := id, name := name, requiredSkills := parseSkillList skillsField,
             isFavorite := false }]) ∧
    parseSkillList " a ,, b , a " = ["a", "b", "a"] := by
  refine ⟨?_, ?_, ?_, fun s input => rfl, fun s id name sk => rfl, by decide⟩
  · intro input h
    have h2 := (List.mem_filter.mp h).2
    simp at h2
  · intro input
    exact List.filter_sublist _
  · intro input x hx
    exact count_filter_ne_empty _ x hx

/-- C10 witness: the tokenization facts at a concrete form input with
the hypothesis discharged. -/
theorem skill_form_tokenization_witness :
    "" ∉ parseSkillList "x,,y" ∧
    (parseSkillList " a ,, b , a ").count "a" =
      ((jsSplitComma " a ,, b , a ").map trimStr).count "a" :=
  ⟨skill_form_tokenization.1 "x,,y",
   skill_form_tokenization.2.2.1 " a ,, b , a " "a" (by decide)⟩
